import Mathlib

/-!
# Verification of the MNQ options-overlay simulation engine

Shallow embedding of the day-by-day trading state machine implemented in
`mnq_sim.py` (`run_sim`, "historical" variant) and `random_mnq_sim.py`
(`run_strategy_on`, "random" variant).  Money, prices and premiums are
embedded as exact rationals (`ℚ`); the floating-point transcendental
routines of numpy/pandas (`sqrt`, fractional `pow`) cannot be represented in
`ℚ`, so they are abstracted into an explicit `FloatOps` record of rational
stand-ins.  Theorems that depend on the value of a square root either
quantify over all `FloatOps` or evaluate at inputs whose variance is a
perfect rational square, where the stand-in `ratSqrt` coincides with the
real square root.

The two Python pseudo-random generators (`random` and `np.random`) are
modelled as a pair of explicit draw streams with positions (`Gen`): `random`
supplies uniform draws in `[0,1)` (used by `random.choice` and
`random.random`), `np.random` supplies standard-normal draws (used by
`np.random.normal` inside `clipped_normal`).  The engine threads this state
exactly in the order the source consumes entropy.
-/

/-- Rational stand-ins for the floating-point `sqrt` and `pow` routines of
numpy.  `sqrtQ` is applied to rolling variances and to `252` (Sharpe
annualisation); `powQ` is applied only inside CAGR. -/
structure FloatOps where
  sqrtQ : ℚ → ℚ
  powQ : ℚ → ℚ → ℚ

/-- Componentwise square root of numerator and denominator; exact whenever
the argument is a perfect square of a rational (e.g. `ratSqrt (9 : ℚ) = 3`,
`ratSqrt 729 = 27`), an arbitrary rational otherwise.  Used as the default
`FloatOps.sqrtQ`; every concrete evaluation below only relies on it at
perfect squares, where it agrees with the real square root. -/
def ratSqrt (x : ℚ) : ℚ := (Nat.sqrt x.num.toNat : ℚ) / (Nat.sqrt x.den : ℚ)

/-- Default float-operation stand-ins.  `powQ` is a placeholder (no claim
depends on the numeric value of a fractional power). -/
def defaultOps : FloatOps := { sqrtQ := ratSqrt, powQ := fun x _ => x }

/-- State of the two process-wide pseudo-random generators: the `random`
module (uniform draws in `[0,1)`) and `np.random` (standard-normal draws).
Each is a stream together with a position. -/
structure Gen where
  pyStream : ℕ → ℚ
  pyPos : ℕ
  npStream : ℕ → ℚ
  npPos : ℕ

/-- One draw of `random.random()`. -/
def nextUnit (g : Gen) : ℚ × Gen :=
  (g.pyStream g.pyPos, { g with pyPos := g.pyPos + 1 })

/-- One standard-normal draw of `np.random`. -/
def nextNormal (g : Gen) : ℚ × Gen :=
  (g.npStream g.npPos, { g with npPos := g.npPos + 1 })

/-- `random.choice(l)`: consumes one uniform draw and selects an element of
`l` deterministically from it. -/
def choiceFrom (l : List ℕ) (g : Gen) : ℕ × Gen :=
  match nextUnit g with
  | (u, g1) => (l.getD (u * l.length).floor.toNat 0, g1)

/-- `clipped_normal(mean, sigma, low, high)`: one normal draw, scaled and
clipped into `[low, high]` (`np.clip`). -/
def clippedNormal (mean sigma low high : ℚ) (g : Gen) : ℚ × Gen :=
  match nextNormal g with
  | (x, g1) => (min high (max low (mean + sigma * x)), g1)

/-- `sum(1 for _ in range(n) if random.random() < p)`: `n` sequential
uniform draws, counting those below `p`. -/
def countAssigned : ℕ → ℚ → Gen → ℕ × Gen
  | 0, _, g => (0, g)
  | n + 1, p, g =>
    match nextUnit g with
    | (u, g1) =>
      match countAssigned n p g1 with
      | (k, g2) => (k + (if u < p then 1 else 0), g2)

/-- `PutTicket` dataclass.  Trading days are identified with their index in
the price series (dates are strictly increasing, so date comparisons in the
source coincide with index comparisons). -/
structure PutTicket where
  open_day : ℕ
  contracts : ℕ
  premium_per_contract : ℚ
  expires_on : ℕ
  assigned_contracts : ℕ
deriving DecidableEq, Repr

/-- `CallTicket` dataclass. -/
structure CallTicket where
  open_day : ℕ
  contracts : ℕ
  premium_per_contract : ℚ
  expires_on : ℕ
deriving DecidableEq, Repr

/-- `LongMNQ` dataclass. -/
structure LongMNQ where
  entry_day : ℕ
  entry_price : ℚ
  contracts : ℕ
deriving DecidableEq, Repr

/-- Kinds of trade-log rows emitted by the two engines. -/
inductive TradeType where
  | SELL_PUT
  | ASSIGN_PUT
  | CLOSE_LONG
  | SELL_COVERED_CALL
  | SKIP_PUT_CAP
deriving DecidableEq, Repr

/-- One trade-log row.  The source rows carry additional presentational
fields (free-text note, entry/exit price); the fields kept here are the
ones the claims quantify over. -/
structure TradeRec where
  date : ℕ
  ttype : TradeType
  contracts : ℕ
  premium : ℚ
  cash_change : ℚ
deriving DecidableEq, Repr

/-- One equity-curve sample (one per processed day).  The random variant
additionally stores the day's z-score in the row; no claim refers to that
column, so it is omitted. -/
structure EquitySample where
  date : ℕ
  equity : ℚ
  cash : ℚ
  unrealized : ℚ
  held_contracts : ℕ
  open_put_contracts : ℕ
  open_call_contracts : ℕ
deriving DecidableEq, Repr

/-- The engine state mutated by the daily loop, plus the two accumulated
output logs and the generator state. -/
structure EngineState where
  cash : ℚ
  positions : List LongMNQ
  open_puts : List PutTicket
  open_calls : List CallTicket
  trades : List TradeRec
  equity : List EquitySample
  gen : Gen

/-- Strategy configuration: the constant blocks at the top of the two
files.  The two engines share their loop logic except that only the random
variant appends a `SKIP_PUT_CAP` row when the cap-clipped count is 0
(`skipRecord`). -/
structure Config where
  putZ : ℚ
  callZ : ℚ
  riskCap : ℤ
  contractNotional : ℤ
  choiceSet : List ℕ
  putMean : ℚ
  putSigma : ℚ
  putMin : ℚ
  putMax : ℚ
  callMean : ℚ
  callSigma : ℚ
  callMin : ℚ
  callMax : ℚ
  assignProb : ℚ
  skipRecord : Bool

/-- `START_EQUITY = 1_000_000.0` (both variants). -/
def START_EQUITY : ℚ := 1000000

/-- `POINT_VALUE = 2.0` (dollars per MNQ point, both variants). -/
def POINT_VALUE : ℚ := 2

/-- `TARGET_POINTS = 250` (both variants). -/
def TARGET_POINTS : ℚ := 250

/-- `ROLL_WINDOW = 20` (both variants). -/
def ROLL_WINDOW : ℕ := 20

/-- The constant block of `random_mnq_sim.py`. -/
def randomCfg : Config :=
  { putZ := -1/2, callZ := 3/4, riskCap := 1350000, contractNotional := 60000,
    choiceSet := [5, 6, 7],
    putMean := 105, putSigma := 10, putMin := 80, putMax := 130,
    callMean := 135, callSigma := 12, callMin := 100, callMax := 170,
    assignProb := 35/100, skipRecord := true }

/-- The constant block of `mnq_sim.py`. -/
def histCfg : Config :=
  { putZ := -3/2, callZ := 2, riskCap := 1200000, contractNotional := 60000,
    choiceSet := [1, 2],
    putMean := 105, putSigma := 10, putMin := 80, putMax := 130,
    callMean := 135, callSigma := 12, callMin := 100, callMax := 170,
    assignProb := 35/100, skipRecord := false }

/-- Total open-put contracts: `sum(t.contracts for t in open_puts)`. -/
def putsContracts (l : List PutTicket) : ℕ := (l.map (fun t => t.contracts)).sum

/-- Total held long contracts: `sum(p.contracts for p in positions)`. -/
def heldContracts (l : List LongMNQ) : ℕ := (l.map (fun p => p.contracts)).sum

/-- `used_notional()`: `(open_put_contracts + held_contracts) * CONTRACT_NOTIONAL`. -/
def usedNotional (cfg : Config) (s : EngineState) : ℤ :=
  ((putsContracts s.open_puts + heldContracts s.positions : ℕ) : ℤ) * cfg.contractNotional

/-- Put-expiry scan: walks the open-put list in order; each ticket with
`expires_on <= day` is dropped, contributing one aggregated `LongMNQ` at
today's close (and an `ASSIGN_PUT` row) when `assigned_contracts > 0`;
unexpired tickets are kept in order.  Returns (still-open tickets, new
positions, new trade rows). -/
def expirePutsScan (d : ℕ) (price : ℚ) :
    List PutTicket → List PutTicket × List LongMNQ × List TradeRec
  | [] => ([], [], [])
  | t :: ts =>
    let r := expirePutsScan d price ts
    if t.expires_on ≤ d then
      if 0 < t.assigned_contracts then
        (r.1,
         { entry_day := d, entry_price := price, contracts := t.assigned_contracts } :: r.2.1,
         { date := d, ttype := TradeType.ASSIGN_PUT, contracts := t.assigned_contracts,
           premium := 0, cash_change := 0 } :: r.2.2)
      else r
    else (t :: r.1, r.2.1, r.2.2)

/-- Phase 1: put expiries. -/
def expirePutsPhase (d : ℕ) (price : ℚ) (s : EngineState) : EngineState :=
  match expirePutsScan d price s.open_puts with
  | (still, newPos, recs) =>
    { s with open_puts := still, positions := s.positions ++ newPos,
             trades := s.trades ++ recs }

/-- Phase 2: call expiries, `open_calls = [t for t in open_calls if day < t.expires_on]`. -/
def expireCallsPhase (d : ℕ) (s : EngineState) : EngineState :=
  { s with open_calls := s.open_calls.filter (fun t => decide (d < t.expires_on)) }

/-- Long-closure scan: each open position whose `price - entry_price` has
reached `TARGET_POINTS` is removed, realizing `points * POINT_VALUE *
contracts`; the others are kept in order.  Returns (still-open positions,
total realized gain, new trade rows). -/
def closeLongsScan (d : ℕ) (price : ℚ) :
    List LongMNQ → List LongMNQ × ℚ × List TradeRec
  | [] => ([], 0, [])
  | p :: ps =>
    let r := closeLongsScan d price ps
    if TARGET_POINTS ≤ price - p.entry_price then
      (r.1, (price - p.entry_price) * POINT_VALUE * p.contracts + r.2.1,
       { date := d, ttype := TradeType.CLOSE_LONG, contracts := p.contracts,
         premium := 0,
         cash_change := (price - p.entry_price) * POINT_VALUE * p.contracts } :: r.2.2)
    else (p :: r.1, r.2.1, r.2.2)

/-- Phase 3: manage longs (take `+TARGET_POINTS`). -/
def closeLongsPhase (d : ℕ) (price : ℚ) (s : EngineState) : EngineState :=
  match closeLongsScan d price s.positions with
  | (still, gain, recs) =>
    { s with positions := still, cash := s.cash + gain, trades := s.trades ++ recs }

/-- Phase 4: put-sell signal.  Mirrors the source exactly: the signal fires
when z is not NaN (`z = some zv`) and `zv <= PUT_Z`; the candidate count is
drawn (`random.choice`, consuming one uniform draw even when the result is
clipped away) and clipped to `max(0, (RISK_CAP - used_notional) //
CONTRACT_NOTIONAL)` (Python floor division = `Int.fdiv`); if the clipped
count is positive the premium and per-contract assignment draws are
consumed, cash is credited, and a `PutTicket` expiring on the next trading
day (or today, when today is the last day) is appended.  When the clipped
count is 0 the random variant appends a `SKIP_PUT_CAP` row; the historical
variant appends nothing. -/
def putSellPhase (cfg : Config) (total d : ℕ) (z : Option ℚ) (s : EngineState) : EngineState :=
  match z with
  | none => s
  | some zv =>
    if zv ≤ cfg.putZ then
      let used := usedNotional cfg s
      let maxC : ℤ := max 0 ((cfg.riskCap - used).fdiv cfg.contractNotional)
      match choiceFrom cfg.choiceSet s.gen with
      | (cand, g1) =>
        let n := min cand maxC.toNat
        if 0 < n then
          match clippedNormal cfg.putMean cfg.putSigma cfg.putMin cfg.putMax g1 with
          | (prem, g2) =>
            match countAssigned n cfg.assignProb g2 with
            | (asg, g3) =>
              let expDay := if d + 1 < total then d + 1 else d
              { s with cash := s.cash + prem * n,
                       open_puts := s.open_puts ++
                         [{ open_day := d, contracts := n, premium_per_contract := prem,
                            expires_on := expDay, assigned_contracts := asg }],
                       trades := s.trades ++
                         [{ date := d, ttype := TradeType.SELL_PUT, contracts := n,
                            premium := prem, cash_change := prem * n }],
                       gen := g3 }
        else if cfg.skipRecord then
          { s with gen := g1,
                   trades := s.trades ++
                     [{ date := d, ttype := TradeType.SKIP_PUT_CAP, contracts := 0,
                        premium := 0, cash_change := 0 }] }
        else { s with gen := g1 }
    else s

/-- Phase 5: covered-call signal (premium only), fires when z is defined,
`z >= CALL_Z` and at least one long is held; writes one call per held
contract, expiring at index `min (d+2) (total-1)`. -/
def coveredCallPhase (cfg : Config) (total d : ℕ) (z : Option ℚ) (s : EngineState) : EngineState :=
  match z with
  | none => s
  | some zv =>
    if cfg.callZ ≤ zv ∧ s.positions ≠ [] then
      let ncc := heldContracts s.positions
      if 0 < ncc then
        match clippedNormal cfg.callMean cfg.callSigma cfg.callMin cfg.callMax s.gen with
        | (prem, g1) =>
          { s with cash := s.cash + prem * ncc,
                   open_calls := s.open_calls ++
                     [{ open_day := d, contracts := ncc, premium_per_contract := prem,
                        expires_on := min (d + 2) (total - 1) }],
                   trades := s.trades ++
                     [{ date := d, ttype := TradeType.SELL_COVERED_CALL, contracts := ncc,
                        premium := prem, cash_change := prem * ncc }],
                   gen := g1 }
      else s
    else s

/-- End-of-day mark-to-market: unrealized P&L of open longs and one
appended `EquitySample`. -/
def markPhase (d : ℕ) (price : ℚ) (s : EngineState) : EngineState :=
  let unreal := (s.positions.map (fun p => (price - p.entry_price) * POINT_VALUE * p.contracts)).sum
  { s with equity := s.equity ++
      [{ date := d, equity := s.cash + unreal, cash := s.cash, unrealized := unreal,
         held_contracts := heldContracts s.positions,
         open_put_contracts := putsContracts s.open_puts,
         open_call_contracts := (s.open_calls.map (fun t => t.contracts)).sum }] }

/-- One full day of the loop body: the five ordered phases followed by the
mark-to-market append. -/
def stepDay (cfg : Config) (total d : ℕ) (price : ℚ) (z : Option ℚ) (s : EngineState) :
    EngineState :=
  markPhase d price
    (coveredCallPhase cfg total d z
      (putSellPhase cfg total d z
        (closeLongsPhase d price
          (expireCallsPhase d
            (expirePutsPhase d price s)))))

/-- Initial engine state for a given generator state. -/
def initState (g : Gen) : EngineState :=
  { cash := START_EQUITY, positions := [], open_puts := [], open_calls := [],
    trades := [], equity := [], gen := g }

/-- The `for i, day in enumerate(dates)` loop: processes the remaining rows
(`(close, z)` pairs) starting at index `d` in a series of `total` days. -/
def runSteps (cfg : Config) (total : ℕ) : ℕ → List (ℚ × Option ℚ) → EngineState → EngineState
  | _, [], s => s
  | d, r :: rest, s => runSteps cfg total (d + 1) rest (stepDay cfg total d r.1 r.2 s)

/-- The full loop over a signal-augmented series. -/
def runEngine (cfg : Config) (rows : List (ℚ × Option ℚ)) (g : Gen) : EngineState :=
  runSteps cfg rows.length 0 rows (initState g)

/-- The engine state at the end of day `d` of the full run (the loop only
ever reads the current row, so the state after day `d` is the run over the
first `d+1` rows with the full series length as `total`). -/
def stateAfter (cfg : Config) (rows : List (ℚ × Option ℚ)) (g : Gen) (d : ℕ) : EngineState :=
  runSteps cfg rows.length 0 (rows.take (d + 1)) (initState g)

/-- Trailing window `[i-W+1, i]` of closes (well-formed for `i ≥ W-1`). -/
def windowAt (closes : List ℚ) (i : ℕ) : List ℚ :=
  (closes.drop (i + 1 - ROLL_WINDOW)).take ROLL_WINDOW

/-- Arithmetic mean of a list (pandas mean; 0 on the empty list, which is
never consumed). -/
def listMean (l : List ℚ) : ℚ := l.sum / l.length

/-- Population variance (`std(ddof=0)` squared). -/
def popVar (l : List ℚ) : ℚ := ((l.map (fun x => (x - listMean l) ^ 2)).sum) / l.length

/-- The z column of `add_zscores`: `z = (close - ma) / sd` with a rolling
mean and population std over `ROLL_WINDOW` closes.  `none` models a NaN
entry: for the first `W-1` days the rolling statistics are NaN, and on a
zero-variance window every window element equals the mean, so the current
close equals `ma` exactly and `z = 0/0 = NaN`.  Otherwise `sd = sqrt(var)`,
taken through the `FloatOps` stand-in. -/
def zAt (ops : FloatOps) (closes : List ℚ) (i : ℕ) : Option ℚ :=
  if i + 1 < ROLL_WINDOW then none
  else
    let w := windowAt closes i
    if popVar w = 0 then none
    else some ((closes.getD i 0 - listMean w) / ops.sqrtQ (popVar w))

/-- The whole z column. -/
def zColumn (ops : FloatOps) (closes : List ℚ) : List (Option ℚ) :=
  (List.range closes.length).map (zAt ops closes)

/-- The `ma` column of `add_zscores` (rolling mean, NaN for the first
`W-1` days). -/
def maColumn (closes : List ℚ) : List (Option ℚ) :=
  (List.range closes.length).map fun i =>
    if i + 1 < ROLL_WINDOW then none else some (listMean (windowAt closes i))

/-- The `sd` column of `add_zscores` (rolling population std). -/
def sdColumn (ops : FloatOps) (closes : List ℚ) : List (Option ℚ) :=
  (List.range closes.length).map fun i =>
    if i + 1 < ROLL_WINDOW then none else some (ops.sqrtQ (popVar (windowAt closes i)))

/-- `add_zscores` output restricted to the two columns the engine loop
reads: `(close, z)` per day. -/
def addZscores (ops : FloatOps) (closes : List ℚ) : List (ℚ × Option ℚ) :=
  closes.zip (zColumn ops closes)

/-- `eq["equity"].pct_change().fillna(0.0)` on a nonempty column: first
return 0, then `x_t / x_{t-1} - 1`. -/
def pctChangeFrom : ℚ → List ℚ → List ℚ
  | _, [] => []
  | prev, x :: t => (x / prev - 1) :: pctChangeFrom x t

/-- Daily simple returns of an equity column. -/
def pctChange : List ℚ → List ℚ
  | [] => []
  | x :: t => 0 :: pctChangeFrom x t

/-- Running-max drawdowns `series / cummax(series) - 1`. -/
def ddFrom : ℚ → List ℚ → List ℚ
  | _, [] => []
  | m, x :: t => (x / max m x - 1) :: ddFrom (max m x) t

/-- Minimum of a nonempty list (0 on the empty list, never consumed). -/
def listMin : List ℚ → ℚ
  | [] => 0
  | x :: t => t.foldl min x

/-- `max_drawdown`: `min(series / cummax(series) - 1)`. -/
def maxDrawdownStat : List ℚ → ℚ
  | [] => 0
  | x :: t => listMin (ddFrom x (x :: t))

/-- Sample variance (`Series.std()` squared, `ddof=1`); its guard
`length < 2` is handled at the call sites that model the NaN std. -/
def sampleVar (l : List ℚ) : ℚ :=
  ((l.map (fun x => (x - listMean l) ^ 2)).sum) / ((l.length : ℚ) - 1)

/-- The `1e-12` guard added to the std in the source `sharpe`. -/
def SHARPE_EPS : ℚ := 1 / 1000000000000

/-- The source `sharpe`: returns have no NaN here (`pct_change().fillna(0)`),
so `dropna` is the identity.  With fewer than 2 samples `r.std()` is NaN,
the `== 0` test is false, and the NaN propagates to a NaN result (`none`).
With `std == 0` the source returns an explicit NaN.  Otherwise the value is
`sqrt(252) * mean / (std + 1e-12)` — note the epsilon in the denominator. -/
def sharpeStat (ops : FloatOps) (rets : List ℚ) : Option ℚ :=
  if rets.length < 2 then none
  else if sampleVar rets = 0 then none
  else some (ops.sqrtQ 252 * listMean rets / (ops.sqrtQ (sampleVar rets) + SHARPE_EPS))

/-- The Sharpe ratio as the spec's words state it (`sqrt(252) * mean /
std`, undefined when std is 0): the refinement target `sharpeStat` is
compared against. -/
def sharpeSpec (ops : FloatOps) (rets : List ℚ) : Option ℚ :=
  if rets.length < 2 then none
  else if sampleVar rets = 0 then none
  else some (ops.sqrtQ 252 * listMean rets / ops.sqrtQ (sampleVar rets))

/-- `cagr`: NaN with fewer than 2 samples, else
`(last/first) ^ (1/years) - 1` with `years = n/252` (fractional power via
the `FloatOps` stand-in). -/
def cagrStat (ops : FloatOps) (eqs : List ℚ) : Option ℚ :=
  if eqs.length < 2 then none
  else some (ops.powQ (eqs.getLastD 0 / eqs.headD 0) (252 / (eqs.length : ℚ)) - 1)

/-- Summary statistics.  The variant-specific extra rows (`Max Open Puts`,
`Max Held MNQ`, the vestigial `Total Put Premium`) are not modelled; no
claim refers to them. -/
structure Stats where
  finalEquity : ℚ
  cagr : Option ℚ
  sharpeRatio : Option ℚ
  maxDrawdown : ℚ
  totalTrades : ℕ
deriving DecidableEq, Repr

/-- The returned run artefacts.  The source sorts the trade rows by date;
the rows are appended in chronological order, so the sort permutes nothing
a claim depends on and the log is kept as appended. -/
structure RunOutput where
  equity : List EquitySample
  returns : List ℚ
  trades : List TradeRec
  stats : Stats
deriving DecidableEq, Repr

/-- Output assembly (the code after the daily loop).  Two failure modes of
the source are modelled.  On an empty equity curve,
`pd.DataFrame([]).set_index("date")` raises `KeyError: 'date'`
(random_mnq_sim.py line 247, mnq_sim.py line 238).  Otherwise, on an empty
trade ledger, `pd.DataFrame([]).sort_values("date")` raises
`KeyError: 'date'` as well (line 249 resp. line 248): an empty list of row
dicts yields a frame with no columns, so the `date` sort key is absent.
(In mnq_sim.py the stats dict is built before the trades line, but nothing
escapes the raise, so the observable outcome is the same error.)  Only
with at least one equity sample and at least one trade row are the equity
table, returns, trade table and stats produced. -/
def mkOutput (ops : FloatOps) (s : EngineState) : Except String RunOutput :=
  match s.equity with
  | [] => Except.error "KeyError: date (set_index on empty equity frame)"
  | _ :: _ =>
    match s.trades with
    | [] => Except.error "KeyError: date (sort_values on empty trade frame)"
    | _ :: _ =>
      let eqs := s.equity.map (fun e => e.equity)
      let rets := pctChange eqs
      Except.ok
        { equity := s.equity, returns := rets, trades := s.trades,
          stats :=
            { finalEquity := eqs.getLastD 0, cagr := cagrStat ops eqs,
              sharpeRatio := sharpeStat ops rets, maxDrawdown := maxDrawdownStat eqs,
              totalTrades := s.trades.length } }

/-- `run_strategy_on(df_prices, seed)` of `random_mnq_sim.py`.  The first
two statements are `random.seed(seed); np.random.seed(seed)`: the incoming
process-wide generator state `gProc` is discarded and replaced by the state
determined by the seed alone (`genOfSeed`, kept abstract).  Returns the run
artefacts and the process generator state left behind. -/
def runStrategyOn (ops : FloatOps) (genOfSeed : ℕ → Gen) (closes : List ℚ) (seed : ℕ)
    (_gProc : Gen) : Except String RunOutput × Gen :=
  let fin := runEngine randomCfg (addZscores ops closes) (genOfSeed seed)
  (mkOutput ops fin, fin.gen)

/-- The body of `run_sim()` of `mnq_sim.py` after the data fetch.  Unlike
the random variant, `run_sim` contains no seeding call: the generators are
seeded once at module import (lines 51-52), so the run consumes whatever
generator state `gProc` the process currently has. -/
def runSimOn (ops : FloatOps) (closes : List ℚ) (gProc : Gen) : Except String RunOutput × Gen :=
  let fin := runEngine histCfg (addZscores ops closes) gProc
  (mkOutput ops fin, fin.gen)

/-- The inductive well-formedness used for the cap invariant: every open
ticket has `assigned_contracts ≤ contracts`, and the used notional is within
the risk cap. -/
def StateWF (cfg : Config) (s : EngineState) : Prop :=
  (∀ t ∈ s.open_puts, t.assigned_contracts ≤ t.contracts) ∧
    usedNotional cfg s ≤ cfg.riskCap

/-- The equity samples a run appends over a stretch of days on which no
signal is defined and no ticket or position is open: one flat sample per
day. -/
def quietSamples : ℕ → ℚ → List (ℚ × Option ℚ) → List EquitySample
  | _, _, [] => []
  | d, c, _ :: rest =>
    { date := d, equity := c, cash := c, unrealized := 0, held_contracts := 0,
      open_put_contracts := 0, open_call_contracts := 0 } :: quietSamples (d + 1) c rest

/-- A concrete baseline generator state: the `random` stream is constantly
0 (so `random.choice` picks the first element and every per-contract
assignment draw succeeds), the normal stream is constantly 0 (so every
premium is its mean). -/
def g0 : Gen := { pyStream := fun _ => 0, pyPos := 0, npStream := fun _ => 0, npPos := 0 }

/-- A generator state whose normal stream is constantly 1 (premiums one
sigma above their mean); stands for the process generator state left behind
by earlier consumption within the same process. -/
def gB : Gen := { pyStream := fun _ => 0, pyPos := 0, npStream := fun _ => 1, npPos := 0 }

/-- 20 closes alternating 103, 97.  Every full 20-day window holds ten of
each, so the population variance is 9 (a perfect square: sd = 3 exactly)
and the z-score of the final day (close 97) is exactly -1, which triggers
the random variant's put sale (`PUT_Z = -0.5`) on the last day of the
series. -/
def closes4 : List ℚ := (List.range 20).map (fun i => if i % 2 = 0 then 103 else 97)

/-- 21 closes alternating 103, 97: as `closes4` but with one more 103 day,
so the day-19 put ticket is assigned on day 20 and a `LongMNQ` position is
open at the end of day 20. -/
def closes5 : List ℚ := (List.range 21).map (fun i => if i % 2 = 0 then 103 else 97)

/-- For the C2 counterexample: ten closes of 1003, nine of 997, then a
final close of 877.  The only full 20-day window is the last day's; its
population variance is 729 (a perfect square: sd = 27 exactly) and the
final z-score is -13/3 ≈ -4.33 ≤ -1.5, so the historical variant sells a
put on the last day, consuming generator draws. -/
def closes2 : List ℚ := List.replicate 10 1003 ++ List.replicate 9 997 ++ [877]

/-- Generator state for the C8 counterexample: the `random` stream yields
0.9 on every third draw (the `random.choice([1,2])` draws, selecting 2
contracts) and 0.1 otherwise (the per-contract assignment draws, all below
`ASSIGN_PROB = 0.35`, so every sold put is assigned); the normal stream is
constantly 0. -/
def g8 : Gen :=
  { pyStream := fun n => if n % 3 = 0 then 9/10 else 1/10, pyPos := 0,
    npStream := fun _ => 0, npPos := 0 }

/-- Signal rows for the C8 counterexample: twelve days of declining closes
1000, 999, ..., 989, each with a defined z-score of -2 ≤ PUT_Z = -1.5 (the
engine loop reads the close and z columns of its input frame; declining
closes also keep every assigned long below its +250-point target).  Under
`g8`, days 0-9 each sell 2 puts which are assigned 2 longs the next day,
so at day 10's signal the 20 held longs exhaust the 1,200,000 cap. -/
def rows8 : List (ℚ × Option ℚ) := (List.range 12).map (fun k => ((1000 - k : ℚ), some (-2)))

/-- An engine state holding 23 assigned contracts, exceeding the random
variant's notional room (23 * 60,000 > 1,350,000): the cap-clipped
contract count of any put signal is 0. -/
def sW : EngineState :=
  { cash := START_EQUITY, positions := [(⟨0, 100, 23⟩ : LongMNQ)], open_puts := [],
    open_calls := [], trades := [], equity := [], gen := g0 }

/-- A state with one equity sample and one trade row: the smallest shape
on which the output assembly succeeds. -/
def sX : EngineState :=
  { cash := START_EQUITY + 105, positions := [], open_puts := [], open_calls := [],
    trades := [(⟨0, TradeType.SELL_PUT, 1, 105, 105⟩ : TradeRec)],
    equity := [(⟨0, START_EQUITY + 105, START_EQUITY + 105, 0, 0, 1, 0⟩ : EquitySample)],
    gen := g0 }

/-- A pandas DataFrame as the engine sees it: a close column plus the
three columns `add_zscores` assigns (empty on a raw price frame). -/
structure Frame where
  closes : List ℚ
  ma : List (Option ℚ)
  sd : List (Option ℚ)
  z : List (Option ℚ)
deriving DecidableEq, Repr

instance : Inhabited Frame := ⟨⟨[], [], [], []⟩⟩

/-- A raw price frame (no derived columns yet). -/
def rawFrame (closes : List ℚ) : Frame := ⟨closes, [], [], []⟩

/-- `df.copy()` on a heap of frames: allocates a fresh frame equal to the
one at `r` and returns its reference. -/
def copyFrame (h : List Frame) (r : ℕ) : List Frame × ℕ := (h ++ [h.getD r default], h.length)

/-- `add_zscores` as a heap operation: `out = df.copy()`, then the three
column assignments mutate `out` in place; the argument frame is not
written. -/
def addZscoresHeap (ops : FloatOps) (h : List Frame) (r : ℕ) : List Frame × ℕ :=
  match copyFrame h r with
  | (h1, r1) =>
    let f := h1.getD r1 default
    (h1.set r1 { f with ma := maColumn f.closes, sd := sdColumn ops f.closes,
                        z := zColumn ops f.closes }, r1)

/-- `run_strategy_on` as a heap operation: it calls `add_zscores` on the
caller's frame (which copies) and then only reads; the heap cell of the
argument frame is never assigned. -/
def runStrategyOnHeap (ops : FloatOps) (genOfSeed : ℕ → Gen) (h : List Frame) (r : ℕ)
    (seed : ℕ) : List Frame × Except String RunOutput :=
  match addZscoresHeap ops h r with
  | (h1, r1) =>
    let f := h1.getD r1 default
    (h1, mkOutput ops (runEngine randomCfg (f.closes.zip f.z) (genOfSeed seed)))

theorem countAssigned_le (n : ℕ) (p : ℚ) (g : Gen) : (countAssigned n p g).1 ≤ n := by
  induction n generalizing g with
  | zero => simp [countAssigned]
  | succ m ih =>
    have e : (countAssigned (m + 1) p g).1 =
        (countAssigned m p (nextUnit g).2).1 + (if (nextUnit g).1 < p then 1 else 0) := rfl
    rw [e]
    have h := ih (nextUnit g).2
    split <;> omega

theorem closeLongsScan_fst (d : ℕ) (price : ℚ) (ps : List LongMNQ) :
    (closeLongsScan d price ps).1 =
      ps.filter (fun p => decide (price - p.entry_price < TARGET_POINTS)) := by
  induction ps with
  | nil => simp [closeLongsScan]
  | cons p t ih =>
    simp only [closeLongsScan, List.filter]
    by_cases h : TARGET_POINTS ≤ price - p.entry_price
    · rw [if_pos h]
      have : decide (price - p.entry_price < TARGET_POINTS) = false := by
        simp [not_lt.mpr h]
      rw [this, ih]
    · rw [if_neg h]
      have : decide (price - p.entry_price < TARGET_POINTS) = true := by
        simp [lt_of_not_ge h]
      rw [this, ih]

theorem closeLongsScan_gain (d : ℕ) (price : ℚ) (ps : List LongMNQ) :
    (closeLongsScan d price ps).2.1 =
      ((ps.filter (fun p => decide (TARGET_POINTS ≤ price - p.entry_price))).map
        (fun p => (price - p.entry_price) * POINT_VALUE * p.contracts)).sum := by
  induction ps with
  | nil => simp [closeLongsScan]
  | cons p t ih =>
    simp only [closeLongsScan, List.filter]
    by_cases h : TARGET_POINTS ≤ price - p.entry_price
    · rw [if_pos h]
      have hd : decide (TARGET_POINTS ≤ price - p.entry_price) = true := by simp [h]
      rw [hd]
      simp [ih]
    · rw [if_neg h]
      have hd : decide (TARGET_POINTS ≤ price - p.entry_price) = false := by simp [h]
      rw [hd, ih]

theorem closeLongsScan_gain_nonneg (d : ℕ) (price : ℚ) (ps : List LongMNQ) :
    0 ≤ (closeLongsScan d price ps).2.1 := by
  rw [closeLongsScan_gain]
  apply List.sum_nonneg
  intro x hx
  obtain ⟨p, hp, rfl⟩ := List.mem_map.mp hx
  have hge : TARGET_POINTS ≤ price - p.entry_price := by
    have := List.of_mem_filter hp
    exact of_decide_eq_true this
  have h1 : (0:ℚ) ≤ price - p.entry_price := le_trans (by norm_num [TARGET_POINTS]) hge
  have h2 : (0:ℚ) ≤ POINT_VALUE := by norm_num [POINT_VALUE]
  positivity

theorem closeLongsScan_held_le (d : ℕ) (price : ℚ) (ps : List LongMNQ) :
    heldContracts (closeLongsScan d price ps).1 ≤ heldContracts ps := by
  rw [closeLongsScan_fst]
  induction ps with
  | nil => simp
  | cons p t ih =>
    simp only [List.filter, heldContracts, List.map, List.sum_cons]
    split <;> simp only [heldContracts, List.map, List.sum_cons] at ih ⊢ <;> omega

theorem expirePutsScan_fst_mem (d : ℕ) (price : ℚ) (ts : List PutTicket) (t : PutTicket)
    (h : t ∈ (expirePutsScan d price ts).1) : t ∈ ts ∧ d < t.expires_on := by
  induction ts with
  | nil => simp [expirePutsScan] at h
  | cons u rest ih =>
    simp only [expirePutsScan] at h
    by_cases he : u.expires_on ≤ d
    · rw [if_pos he] at h
      by_cases ha : 0 < u.assigned_contracts
      · rw [if_pos ha] at h
        have := ih h
        exact ⟨List.mem_cons_of_mem u this.1, this.2⟩
      · rw [if_neg ha] at h
        have := ih h
        exact ⟨List.mem_cons_of_mem u this.1, this.2⟩
    · rw [if_neg he] at h
      rcases List.mem_cons.mp h with rfl | hm
      · exact ⟨List.mem_cons_self t rest, lt_of_not_ge he⟩
      · have := ih hm
        exact ⟨List.mem_cons_of_mem u this.1, this.2⟩

theorem expirePutsScan_sum_le (d : ℕ) (price : ℚ) (ts : List PutTicket)
    (hWF : ∀ t ∈ ts, t.assigned_contracts ≤ t.contracts) :
    putsContracts (expirePutsScan d price ts).1 + heldContracts (expirePutsScan d price ts).2.1 ≤
      putsContracts ts := by
  induction ts with
  | nil => simp [expirePutsScan, putsContracts, heldContracts]
  | cons u rest ih =>
    have hu : u.assigned_contracts ≤ u.contracts := hWF u (List.mem_cons_self u rest)
    have hrest : ∀ t ∈ rest, t.assigned_contracts ≤ t.contracts :=
      fun t ht => hWF t (List.mem_cons_of_mem u ht)
    have ihr := ih hrest
    simp only [expirePutsScan]
    by_cases he : u.expires_on ≤ d
    · rw [if_pos he]
      by_cases ha : 0 < u.assigned_contracts
      · rw [if_pos ha]
        simp only [putsContracts, heldContracts, List.map, List.sum_cons] at ihr ⊢
        omega
      · rw [if_neg ha]
        simp only [putsContracts, heldContracts, List.map, List.sum_cons] at ihr ⊢
        omega
    · rw [if_neg he]
      simp only [putsContracts, heldContracts, List.map, List.sum_cons] at ihr ⊢
      omega

theorem expirePutsPhase_eq (d : ℕ) (price : ℚ) (s : EngineState) :
    expirePutsPhase d price s =
      { s with open_puts := (expirePutsScan d price s.open_puts).1,
               positions := s.positions ++ (expirePutsScan d price s.open_puts).2.1,
               trades := s.trades ++ (expirePutsScan d price s.open_puts).2.2 } := rfl

theorem expireCallsPhase_eq (d : ℕ) (s : EngineState) :
    expireCallsPhase d s =
      { s with open_calls := s.open_calls.filter (fun t => decide (d < t.expires_on)) } := rfl

theorem closeLongsPhase_eq (d : ℕ) (price : ℚ) (s : EngineState) :
    closeLongsPhase d price s =
      { s with positions := (closeLongsScan d price s.positions).1,
               cash := s.cash + (closeLongsScan d price s.positions).2.1,
               trades := s.trades ++ (closeLongsScan d price s.positions).2.2 } := rfl

theorem markPhase_eq (d : ℕ) (price : ℚ) (s : EngineState) :
    markPhase d price s =
      { s with equity := s.equity ++
          [{ date := d,
             equity := s.cash +
               (s.positions.map (fun p => (price - p.entry_price) * POINT_VALUE * p.contracts)).sum,
             cash := s.cash,
             unrealized :=
               (s.positions.map (fun p => (price - p.entry_price) * POINT_VALUE * p.contracts)).sum,
             held_contracts := heldContracts s.positions,
             open_put_contracts := putsContracts s.open_puts,
             open_call_contracts := (s.open_calls.map (fun t => t.contracts)).sum }] } := rfl

theorem putSellPhase_none (cfg : Config) (total d : ℕ) (s : EngineState) :
    putSellPhase cfg total d none s = s := rfl

theorem coveredCallPhase_none (cfg : Config) (total d : ℕ) (s : EngineState) :
    coveredCallPhase cfg total d none s = s := rfl

theorem putSellPhase_positions (cfg : Config) (total d : ℕ) (z : Option ℚ) (s : EngineState) :
    (putSellPhase cfg total d z s).positions = s.positions := by
  cases z with
  | none => rfl
  | some zv =>
    simp only [putSellPhase]
    split_ifs <;> rfl

theorem putSellPhase_equity (cfg : Config) (total d : ℕ) (z : Option ℚ) (s : EngineState) :
    (putSellPhase cfg total d z s).equity = s.equity := by
  cases z with
  | none => rfl
  | some zv =>
    simp only [putSellPhase]
    split_ifs <;> rfl

theorem putSellPhase_open_calls (cfg : Config) (total d : ℕ) (z : Option ℚ) (s : EngineState) :
    (putSellPhase cfg total d z s).open_calls = s.open_calls := by
  cases z with
  | none => rfl
  | some zv =>
    simp only [putSellPhase]
    split_ifs <;> rfl

theorem coveredCallPhase_positions (cfg : Config) (total d : ℕ) (z : Option ℚ) (s : EngineState) :
    (coveredCallPhase cfg total d z s).positions = s.positions := by
  cases z with
  | none => rfl
  | some zv =>
    simp only [coveredCallPhase]
    split_ifs <;> rfl

theorem coveredCallPhase_open_puts (cfg : Config) (total d : ℕ) (z : Option ℚ) (s : EngineState) :
    (coveredCallPhase cfg total d z s).open_puts = s.open_puts := by
  cases z with
  | none => rfl
  | some zv =>
    simp only [coveredCallPhase]
    split_ifs <;> rfl

theorem coveredCallPhase_equity (cfg : Config) (total d : ℕ) (z : Option ℚ) (s : EngineState) :
    (coveredCallPhase cfg total d z s).equity = s.equity := by
  cases z with
  | none => rfl
  | some zv =>
    simp only [coveredCallPhase]
    split_ifs <;> rfl

theorem coveredCallPhase_cash_ge (cfg : Config) (total d : ℕ) (z : Option ℚ) (s : EngineState)
    (h1 : 0 ≤ cfg.callMin) (h2 : cfg.callMin ≤ cfg.callMax) :
    s.cash ≤ (coveredCallPhase cfg total d z s).cash := by
  cases z with
  | none => exact le_refl _
  | some zv =>
    simp only [coveredCallPhase]
    split_ifs with hc hn
    · show s.cash ≤ s.cash + (clippedNormal cfg.callMean cfg.callSigma cfg.callMin cfg.callMax s.gen).1 * (heldContracts s.positions : ℚ)
      have hp : 0 ≤ (clippedNormal cfg.callMean cfg.callSigma cfg.callMin cfg.callMax s.gen).1 := by
        have e : (clippedNormal cfg.callMean cfg.callSigma cfg.callMin cfg.callMax s.gen).1 =
            min cfg.callMax (max cfg.callMin (cfg.callMean + cfg.callSigma * (nextNormal s.gen).1)) := rfl
        rw [e]
        have : cfg.callMin ≤ min cfg.callMax (max cfg.callMin (cfg.callMean + cfg.callSigma * (nextNormal s.gen).1)) :=
          le_min h2 (le_max_left _ _)
        linarith
      have hnum : (0:ℚ) ≤ (heldContracts s.positions : ℚ) := by positivity
      nlinarith
    · exact le_refl _
    · exact le_refl _

theorem clippedNormal_fst_ge (mean sigma low high : ℚ) (g : Gen) (h : low ≤ high) :
    low ≤ (clippedNormal mean sigma low high g).1 := by
  have e : (clippedNormal mean sigma low high g).1 =
      min high (max low (mean + sigma * (nextNormal g).1)) := rfl
  rw [e]
  exact le_min h (le_max_left _ _)

theorem fdiv_cap_bound (R N u : ℤ) (n : ℕ) (hN : 0 < N)
    (hn : (n : ℤ) ≤ max 0 ((R - u).fdiv N)) (hpos : 0 < n) : u + (n : ℤ) * N ≤ R := by
  by_cases hc : (R - u).fdiv N < 0
  · have hm : max 0 ((R - u).fdiv N) = 0 := max_eq_left (le_of_lt hc)
    rw [hm] at hn
    exfalso
    omega
  · have hmx : max 0 ((R - u).fdiv N) = (R - u).fdiv N := max_eq_right (not_lt.mp hc)
    rw [hmx] at hn
    have hdm : (R - u).fdiv N * N ≤ R - u := by
      rw [Int.fdiv_eq_ediv _ (le_of_lt hN)]
      exact Int.ediv_mul_le _ (ne_of_gt hN)
    have hmul : (n : ℤ) * N ≤ (R - u).fdiv N * N := mul_le_mul_of_nonneg_right hn (le_of_lt hN)
    linarith

theorem putSellPhase_cash_ge (cfg : Config) (total d : ℕ) (z : Option ℚ) (s : EngineState)
    (h1 : 0 ≤ cfg.putMin) (h2 : cfg.putMin ≤ cfg.putMax) :
    s.cash ≤ (putSellPhase cfg total d z s).cash := by
  cases z with
  | none => exact le_refl _
  | some zv =>
    simp only [putSellPhase]
    split_ifs
    all_goals try exact le_refl _
    all_goals
      dsimp only
    all_goals
      have hp : 0 ≤ (clippedNormal cfg.putMean cfg.putSigma cfg.putMin cfg.putMax
          (choiceFrom cfg.choiceSet s.gen).2).1 :=
        le_trans h1 (clippedNormal_fst_ge cfg.putMean cfg.putSigma cfg.putMin cfg.putMax
          (choiceFrom cfg.choiceSet s.gen).2 h2)
    all_goals
      have hc : (0:ℚ) ≤ ((min (choiceFrom cfg.choiceSet s.gen).1
          (max 0 ((cfg.riskCap - usedNotional cfg s).fdiv cfg.contractNotional)).toNat : ℕ) : ℚ) := by
        positivity
    all_goals
      nlinarith [mul_nonneg hp hc]

theorem putSellPhase_used_le (cfg : Config) (total d : ℕ) (z : Option ℚ) (s : EngineState)
    (hN : 0 < cfg.contractNotional) (h : usedNotional cfg s ≤ cfg.riskCap) :
    usedNotional cfg (putSellPhase cfg total d z s) ≤ cfg.riskCap := by
  cases z with
  | none => exact h
  | some zv =>
    simp only [putSellPhase]
    split_ifs
    all_goals try exact h
    all_goals rename_i hz hn hd
    all_goals
      simp only [usedNotional, putsContracts, List.map_append, List.map_cons, List.map_nil,
        List.sum_append, List.sum_cons, List.sum_nil, Nat.add_zero] at h hn ⊢
    all_goals
      set SP : ℕ := (s.open_puts.map (fun t => t.contracts)).sum with hSP
    all_goals
      set HC : ℕ := heldContracts s.positions with hHC
    all_goals
      set mxZ : ℤ := max 0 ((cfg.riskCap - (((SP + HC : ℕ)) : ℤ) * cfg.contractNotional).fdiv
        cfg.contractNotional) with hmxZ
    all_goals
      set n : ℕ := min (choiceFrom cfg.choiceSet s.gen).1 mxZ.toNat with hn2
    all_goals
      have hnle : (n : ℤ) ≤ mxZ := by
        have hr : n ≤ mxZ.toNat := min_le_right _ _
        have ht := Int.toNat_of_nonneg (le_max_left 0 ((cfg.riskCap -
          (((SP + HC : ℕ)) : ℤ) * cfg.contractNotional).fdiv cfg.contractNotional))
        rw [hmxZ]
        omega
    all_goals
      have key := fdiv_cap_bound cfg.riskCap cfg.contractNotional
        ((((SP + HC : ℕ)) : ℤ) * cfg.contractNotional) n hN (by rw [hmxZ] at hnle; exact hnle) hn
    all_goals
      have egoal : ((((SP + n + HC : ℕ)) : ℤ)) * cfg.contractNotional =
          (((SP + HC : ℕ)) : ℤ) * cfg.contractNotional + (n : ℤ) * cfg.contractNotional := by
        push_cast
        ring
    all_goals
      rw [egoal]
    all_goals
      exact key

theorem putSellPhase_open_puts_mem (cfg : Config) (total d : ℕ) (z : Option ℚ) (s : EngineState)
    (t : PutTicket) (h : t ∈ (putSellPhase cfg total d z s).open_puts) :
    t ∈ s.open_puts ∨
      (t.open_day = d ∧ t.expires_on = (if d + 1 < total then d + 1 else d) ∧
        t.assigned_contracts ≤ t.contracts) := by
  cases z with
  | none => exact Or.inl h
  | some zv =>
    simp only [putSellPhase] at h
    split_ifs at h with hz hn hd
    · dsimp only at h
      rcases List.mem_append.mp h with hl | hr
      · exact Or.inl hl
      · rcases List.mem_singleton.mp hr with rfl
        refine Or.inr ⟨rfl, ?_, countAssigned_le _ _ _⟩
        rw [if_pos hd]
    · dsimp only at h
      rcases List.mem_append.mp h with hl | hr
      · exact Or.inl hl
      · rcases List.mem_singleton.mp hr with rfl
        refine Or.inr ⟨rfl, ?_, countAssigned_le _ _ _⟩
        rw [if_neg hd]
    · exact Or.inl h
    · exact Or.inl h
    · exact Or.inl h

theorem putSellPhase_capped_skip (cfg : Config) (total d : ℕ) (zv : ℚ) (s : EngineState)
    (hz : zv ≤ cfg.putZ)
    (hn : ¬ 0 < min (choiceFrom cfg.choiceSet s.gen).1
      (max 0 ((cfg.riskCap - usedNotional cfg s).fdiv cfg.contractNotional)).toNat)
    (hsk : cfg.skipRecord = true) :
    putSellPhase cfg total d (some zv) s =
      { s with gen := (choiceFrom cfg.choiceSet s.gen).2,
               trades := s.trades ++
                 [{ date := d, ttype := TradeType.SKIP_PUT_CAP, contracts := 0,
                    premium := 0, cash_change := 0 }] } := by
  simp only [putSellPhase, if_pos hz, if_neg hn, hsk, if_true]

theorem putSellPhase_capped_silent (cfg : Config) (total d : ℕ) (zv : ℚ) (s : EngineState)
    (hz : zv ≤ cfg.putZ)
    (hn : ¬ 0 < min (choiceFrom cfg.choiceSet s.gen).1
      (max 0 ((cfg.riskCap - usedNotional cfg s).fdiv cfg.contractNotional)).toNat)
    (hsk : cfg.skipRecord = false) :
    putSellPhase cfg total d (some zv) s = { s with gen := (choiceFrom cfg.choiceSet s.gen).2 } := by
  simp only [putSellPhase, if_pos hz, if_neg hn, hsk, if_false, Bool.false_eq_true]

theorem stepDay_positions_below (cfg : Config) (total d : ℕ) (price : ℚ) (z : Option ℚ)
    (s : EngineState) (p : LongMNQ) (h : p ∈ (stepDay cfg total d price z s).positions) :
    price - p.entry_price < TARGET_POINTS := by
  have e1 : (stepDay cfg total d price z s).positions =
      (closeLongsScan d price (expirePutsPhase d price s |> expireCallsPhase d).positions).1 := by
    simp only [stepDay, markPhase_eq, coveredCallPhase_positions, putSellPhase_positions,
      closeLongsPhase_eq]
  rw [e1, closeLongsScan_fst] at h
  have := List.of_mem_filter h
  exact of_decide_eq_true this

theorem stepDay_cash_ge (cfg : Config) (total d : ℕ) (price : ℚ) (z : Option ℚ)
    (s : EngineState) (h1 : 0 ≤ cfg.putMin) (h2 : cfg.putMin ≤ cfg.putMax)
    (h3 : 0 ≤ cfg.callMin) (h4 : cfg.callMin ≤ cfg.callMax) :
    s.cash ≤ (stepDay cfg total d price z s).cash := by
  have e1 : (stepDay cfg total d price z s).cash =
      (coveredCallPhase cfg total d z
        (putSellPhase cfg total d z
          (closeLongsPhase d price (expireCallsPhase d (expirePutsPhase d price s))))).cash := by
    simp only [stepDay, markPhase_eq]
  rw [e1]
  have hcl : s.cash ≤ (closeLongsPhase d price (expireCallsPhase d (expirePutsPhase d price s))).cash := by
    simp only [closeLongsPhase_eq, expireCallsPhase_eq, expirePutsPhase_eq]
    have := closeLongsScan_gain_nonneg d price
      (expireCallsPhase d (expirePutsPhase d price s)).positions
    simp only [expireCallsPhase_eq, expirePutsPhase_eq] at this
    linarith
  have hps := putSellPhase_cash_ge cfg total d z
    (closeLongsPhase d price (expireCallsPhase d (expirePutsPhase d price s))) h1 h2
  have hcc := coveredCallPhase_cash_ge cfg total d z
    (putSellPhase cfg total d z
      (closeLongsPhase d price (expireCallsPhase d (expirePutsPhase d price s)))) h3 h4
  linarith

theorem usedNotional_mono (cfg : Config) (s1 s2 : EngineState) (hN : 0 ≤ cfg.contractNotional)
    (h : putsContracts s2.open_puts + heldContracts s2.positions ≤
      putsContracts s1.open_puts + heldContracts s1.positions) :
    usedNotional cfg s2 ≤ usedNotional cfg s1 := by
  simp only [usedNotional]
  have : ((putsContracts s2.open_puts + heldContracts s2.positions : ℕ) : ℤ) ≤
      ((putsContracts s1.open_puts + heldContracts s1.positions : ℕ) : ℤ) := by
    exact_mod_cast h
  exact mul_le_mul_of_nonneg_right this hN

theorem heldContracts_append (l1 l2 : List LongMNQ) :
    heldContracts (l1 ++ l2) = heldContracts l1 + heldContracts l2 := by
  simp [heldContracts]

theorem stepDay_wf (cfg : Config) (total d : ℕ) (price : ℚ) (z : Option ℚ) (s : EngineState)
    (hN : 0 < cfg.contractNotional) (hs : StateWF cfg s) :
    StateWF cfg (stepDay cfg total d price z s) := by
  obtain ⟨hwf, hcap⟩ := hs
  -- state after phase 1
  set s1 := expirePutsPhase d price s with hs1
  have hwf1 : ∀ t ∈ s1.open_puts, t.assigned_contracts ≤ t.contracts := by
    intro t ht
    rw [hs1, expirePutsPhase_eq] at ht
    exact hwf t (expirePutsScan_fst_mem d price s.open_puts t ht).1
  have hcap1 : usedNotional cfg s1 ≤ cfg.riskCap := by
    refine le_trans (usedNotional_mono cfg s s1 (le_of_lt hN) ?_) hcap
    rw [hs1, expirePutsPhase_eq]
    dsimp only
    rw [heldContracts_append]
    have := expirePutsScan_sum_le d price s.open_puts hwf
    omega
  -- phase 2 does not change puts or positions
  set s2 := expireCallsPhase d s1 with hs2
  have hwf2 : ∀ t ∈ s2.open_puts, t.assigned_contracts ≤ t.contracts := by
    intro t ht
    rw [hs2, expireCallsPhase_eq] at ht
    exact hwf1 t ht
  have hcap2 : usedNotional cfg s2 ≤ cfg.riskCap := by
    refine le_trans (usedNotional_mono cfg s1 s2 (le_of_lt hN) ?_) hcap1
    rw [hs2, expireCallsPhase_eq]
  -- phase 3 only shrinks positions
  set s3 := closeLongsPhase d price s2 with hs3
  have hwf3 : ∀ t ∈ s3.open_puts, t.assigned_contracts ≤ t.contracts := by
    intro t ht
    rw [hs3, closeLongsPhase_eq] at ht
    exact hwf2 t ht
  have hcap3 : usedNotional cfg s3 ≤ cfg.riskCap := by
    refine le_trans (usedNotional_mono cfg s2 s3 (le_of_lt hN) ?_) hcap2
    rw [hs3, closeLongsPhase_eq]
    dsimp only
    have := closeLongsScan_held_le d price s2.positions
    omega
  -- phase 4: the cap-aware put sale
  set s4 := putSellPhase cfg total d z s3 with hs4
  have hwf4 : ∀ t ∈ s4.open_puts, t.assigned_contracts ≤ t.contracts := by
    intro t ht
    rw [hs4] at ht
    rcases putSellPhase_open_puts_mem cfg total d z s3 t ht with hm | ⟨_, _, hle⟩
    · exact hwf3 t hm
    · exact hle
  have hcap4 : usedNotional cfg s4 ≤ cfg.riskCap := by
    rw [hs4]
    exact putSellPhase_used_le cfg total d z s3 hN hcap3
  -- phases 5 and mark change neither puts nor positions
  constructor
  · intro t ht
    have e : (stepDay cfg total d price z s).open_puts = s4.open_puts := by
      simp only [stepDay, markPhase_eq, coveredCallPhase_open_puts, hs4, hs3, hs2, hs1]
    rw [e] at ht
    exact hwf4 t ht
  · have e : usedNotional cfg (stepDay cfg total d price z s) = usedNotional cfg s4 := by
      simp only [usedNotional]
      have e1 : (stepDay cfg total d price z s).open_puts = s4.open_puts := by
        simp only [stepDay, markPhase_eq, coveredCallPhase_open_puts, hs4, hs3, hs2, hs1]
      have e2 : (stepDay cfg total d price z s).positions = s4.positions := by
        simp only [stepDay, markPhase_eq, coveredCallPhase_positions, hs4, hs3, hs2, hs1]
      rw [e1, e2]
    rw [e]
    exact hcap4

theorem stepDay_open_puts_mem (cfg : Config) (total d : ℕ) (price : ℚ) (z : Option ℚ)
    (s : EngineState) (t : PutTicket) (h : t ∈ (stepDay cfg total d price z s).open_puts) :
    (t ∈ s.open_puts ∧ d < t.expires_on) ∨
      (t.open_day = d ∧ t.expires_on = (if d + 1 < total then d + 1 else d)) := by
  have e : (stepDay cfg total d price z s).open_puts =
      (putSellPhase cfg total d z
        (closeLongsPhase d price (expireCallsPhase d (expirePutsPhase d price s)))).open_puts := by
    simp only [stepDay, markPhase_eq, coveredCallPhase_open_puts]
  rw [e] at h
  rcases putSellPhase_open_puts_mem cfg total d z _ t h with hm | ⟨ho, he, _⟩
  · left
    rw [closeLongsPhase_eq, expireCallsPhase_eq, expirePutsPhase_eq] at hm
    dsimp only at hm
    exact ⟨(expirePutsScan_fst_mem d price s.open_puts t hm).1,
      (expirePutsScan_fst_mem d price s.open_puts t hm).2⟩
  · right
    exact ⟨ho, he⟩

theorem stepDay_equity_shape (cfg : Config) (total d : ℕ) (price : ℚ) (z : Option ℚ)
    (s : EngineState) :
    ∃ e : EquitySample, (stepDay cfg total d price z s).equity = s.equity ++ [e] ∧
      e.cash = (stepDay cfg total d price z s).cash := by
  set s4 := coveredCallPhase cfg total d z
    (putSellPhase cfg total d z
      (closeLongsPhase d price (expireCallsPhase d (expirePutsPhase d price s)))) with hs4
  have e1 : (stepDay cfg total d price z s).equity = s4.equity ++
      [{ date := d,
         equity := s4.cash +
           (s4.positions.map (fun p => (price - p.entry_price) * POINT_VALUE * p.contracts)).sum,
         cash := s4.cash,
         unrealized :=
           (s4.positions.map (fun p => (price - p.entry_price) * POINT_VALUE * p.contracts)).sum,
         held_contracts := heldContracts s4.positions,
         open_put_contracts := putsContracts s4.open_puts,
         open_call_contracts := (s4.open_calls.map (fun t => t.contracts)).sum }] := by
    simp only [stepDay, markPhase_eq, hs4]
  have e2 : s4.equity = s.equity := by
    simp only [hs4, coveredCallPhase_equity, putSellPhase_equity, closeLongsPhase_eq,
      expireCallsPhase_eq, expirePutsPhase_eq]
  have e3 : (stepDay cfg total d price z s).cash = s4.cash := by
    simp only [stepDay, markPhase_eq, hs4]
  refine ⟨⟨d,
      s4.cash + (s4.positions.map (fun p => (price - p.entry_price) * POINT_VALUE * p.contracts)).sum,
      s4.cash,
      (s4.positions.map (fun p => (price - p.entry_price) * POINT_VALUE * p.contracts)).sum,
      heldContracts s4.positions, putsContracts s4.open_puts,
      (s4.open_calls.map (fun t => t.contracts)).sum⟩, ?_, ?_⟩
  · rw [e1, e2]
  · rw [e3]

theorem runSteps_append (cfg : Config) (total : ℕ) (l1 l2 : List (ℚ × Option ℚ)) (i : ℕ)
    (s : EngineState) :
    runSteps cfg total i (l1 ++ l2) s =
      runSteps cfg total (i + l1.length) l2 (runSteps cfg total i l1 s) := by
  induction l1 generalizing i s with
  | nil => simp [runSteps]
  | cons r t ih =>
    simp only [List.cons_append, List.append_eq, runSteps]
    rw [ih]
    have e : i + 1 + t.length = i + (t.length + 1) := by omega
    rw [List.length_cons, e]

theorem runSteps_wf (cfg : Config) (total : ℕ) (rows : List (ℚ × Option ℚ)) (i : ℕ)
    (s : EngineState) (hN : 0 < cfg.contractNotional) (hs : StateWF cfg s) :
    StateWF cfg (runSteps cfg total i rows s) := by
  induction rows generalizing i s with
  | nil => exact hs
  | cons r t ih =>
    exact ih (i + 1) _ (stepDay_wf cfg total i r.1 r.2 s hN hs)

theorem runSteps_cash_mono (cfg : Config) (total : ℕ) (rows : List (ℚ × Option ℚ)) (i : ℕ)
    (s : EngineState) (h1 : 0 ≤ cfg.putMin) (h2 : cfg.putMin ≤ cfg.putMax)
    (h3 : 0 ≤ cfg.callMin) (h4 : cfg.callMin ≤ cfg.callMax) :
    s.cash ≤ (runSteps cfg total i rows s).cash := by
  induction rows generalizing i s with
  | nil => exact le_refl _
  | cons r t ih =>
    exact le_trans (stepDay_cash_ge cfg total i r.1 r.2 s h1 h2 h3 h4) (ih (i + 1) _)

theorem initState_wf (cfg : Config) (g : Gen) (hcap : 0 ≤ cfg.riskCap) :
    StateWF cfg (initState g) := by
  constructor
  · intro t ht
    simp [initState] at ht
  · simp [initState, usedNotional, putsContracts, heldContracts]
    exact hcap

theorem stateAfter_wf (cfg : Config) (rows : List (ℚ × Option ℚ)) (g : Gen) (d : ℕ)
    (hN : 0 < cfg.contractNotional) (hcap : 0 ≤ cfg.riskCap) :
    StateWF cfg (stateAfter cfg rows g d) :=
  runSteps_wf cfg rows.length (rows.take (d + 1)) 0 (initState g) hN (initState_wf cfg g hcap)

theorem stateAfter_succ (cfg : Config) (rows : List (ℚ × Option ℚ)) (g : Gen) (d : ℕ)
    (hd : d + 1 < rows.length) :
    stateAfter cfg rows g (d + 1) =
      stepDay cfg rows.length (d + 1) (rows.getD (d + 1) (0, none)).1
        (rows.getD (d + 1) (0, none)).2 (stateAfter cfg rows g d) := by
  have ht : rows.take (d + 2) = rows.take (d + 1) ++ [rows.getD (d + 1) (0, none)] := by
    rw [List.take_succ]
    congr 1
    have hx : rows[d + 1]? = some rows[d + 1] := List.getElem?_eq_getElem hd
    rw [hx]
    have hgd : rows.getD (d + 1) (0, none) = rows[d + 1] := by
      rw [List.getD_eq_getElem?_getD, hx]
      rfl
    rw [hgd]
    rfl
  have hlen : (rows.take (d + 1)).length = d + 1 := by
    rw [List.length_take]
    omega
  simp only [stateAfter]
  rw [ht, runSteps_append, hlen]
  simp [runSteps]

theorem stateAfter_stable (cfg : Config) (rows : List (ℚ × Option ℚ)) (g : Gen) (d : ℕ)
    (hd : rows.length ≤ d + 1) :
    stateAfter cfg rows g (d + 1) = stateAfter cfg rows g d := by
  simp only [stateAfter]
  rw [List.take_of_length_le (by omega), List.take_of_length_le (by omega)]

theorem stepDay_quiet (cfg : Config) (total d : ℕ) (price : ℚ) (s : EngineState)
    (hpos : s.positions = []) (hputs : s.open_puts = []) (hcalls : s.open_calls = []) :
    stepDay cfg total d price none s =
      { s with equity := s.equity ++
          [{ date := d, equity := s.cash, cash := s.cash, unrealized := 0, held_contracts := 0,
             open_put_contracts := 0, open_call_contracts := 0 }] } := by
  simp only [stepDay, putSellPhase_none, coveredCallPhase_none, markPhase_eq, closeLongsPhase_eq,
    expireCallsPhase_eq, expirePutsPhase_eq, hpos, hputs, hcalls]
  simp [expirePutsScan, closeLongsScan, heldContracts, putsContracts]

theorem runSteps_quiet (cfg : Config) (total : ℕ) (rows : List (ℚ × Option ℚ)) (i : ℕ)
    (s : EngineState) (hz : ∀ r ∈ rows, r.2 = none) (hpos : s.positions = [])
    (hputs : s.open_puts = []) (hcalls : s.open_calls = []) :
    runSteps cfg total i rows s = { s with equity := s.equity ++ quietSamples i s.cash rows } := by
  induction rows generalizing i s with
  | nil => simp [runSteps, quietSamples]
  | cons r rest ih =>
    have hz0 : r.2 = none := hz r (List.mem_cons_self r rest)
    have hzr : ∀ x ∈ rest, x.2 = none := fun x hx => hz x (List.mem_cons_of_mem r hx)
    simp only [runSteps]
    rw [hz0, stepDay_quiet cfg total i r.1 s hpos hputs hcalls]
    rw [ih (i + 1) _ hzr (by simp [hpos]) (by simp [hputs]) (by simp [hcalls])]
    simp [quietSamples]

theorem popVar_replicate (m : ℕ) (c : ℚ) : popVar (List.replicate m c) = 0 := by
  cases m with
  | zero => simp [popVar, listMean]
  | succ k =>
    have hmean : listMean (List.replicate (k + 1) c) = c := by
      simp only [listMean, List.sum_replicate, List.length_replicate, nsmul_eq_mul]
      field_simp
    simp only [popVar, hmean]
    simp

theorem windowAt_replicate (n i : ℕ) (c : ℚ) :
    windowAt (List.replicate n c) i = List.replicate (min ROLL_WINDOW (n - (i + 1 - ROLL_WINDOW))) c := by
  simp [windowAt, List.drop_replicate, List.take_replicate]

theorem zColumn_flat (ops : FloatOps) (n : ℕ) (c : ℚ) :
    zColumn ops (List.replicate n c) = List.replicate n none := by
  have hlen : (List.replicate n c).length = n := List.length_replicate n c
  rw [zColumn, hlen]
  rw [List.eq_replicate_iff]
  constructor
  · simp
  · intro b hb
    obtain ⟨i, hi, rfl⟩ := List.mem_map.mp hb
    simp only [zAt]
    split_ifs with h1 h2
    · rfl
    · rfl
    · exfalso
      rw [windowAt_replicate, popVar_replicate] at h2
      exact h2 rfl

theorem quietSamples_map_equity (d : ℕ) (c : ℚ) (rows : List (ℚ × Option ℚ)) :
    (quietSamples d c rows).map (fun e => e.equity) = List.replicate rows.length c := by
  induction rows generalizing d with
  | nil => simp [quietSamples]
  | cons r rest ih => simp [quietSamples, ih, List.replicate_succ]

theorem getLastD_replicate (n : ℕ) (c : ℚ) : ∀ x : ℚ, (List.replicate (n + 1) c).getLastD x = c := by
  induction n with
  | zero => intro x; rfl
  | succ k ih =>
    intro x
    rw [List.replicate_succ, List.getLastD_cons]
    exact ih c

theorem mkOutput_empty_trades (ops : FloatOps) (s : EngineState) (e : EquitySample)
    (rest : List EquitySample) (hq : s.equity = e :: rest) (ht : s.trades = []) :
    mkOutput ops s = Except.error "KeyError: date (sort_values on empty trade frame)" := by
  simp only [mkOutput, hq, ht]

/-- C6: on a price series of 100 identical closes every rolling
(population) variance is 0, hence every rolling standard deviation is 0 and
every z-score is NaN (`none`); the engine generates zero trades and its
cash and every equity sample stay at the starting equity exactly — but the
program never reports this: with an empty trade ledger the output assembly
raises `KeyError: 'date'` in `pd.DataFrame([]).sort_values("date")`
(random_mnq_sim.py line 249), so the run crashes instead of returning the
flat equity curve. -/
theorem flat_series_no_trades (c : ℚ) (ops : FloatOps) (gos : ℕ → Gen) (seed : ℕ) (g : Gen) :
    (∀ i : ℕ, popVar (windowAt (List.replicate 100 c) i) = 0) ∧
    zColumn ops (List.replicate 100 c) = List.replicate 100 none ∧
    (runEngine randomCfg (addZscores ops (List.replicate 100 c)) (gos seed)).trades = [] ∧
    (runEngine randomCfg (addZscores ops (List.replicate 100 c)) (gos seed)).cash =
      START_EQUITY ∧
    ((runEngine randomCfg (addZscores ops (List.replicate 100 c)) (gos seed)).equity.map
      (fun e => e.equity)) = List.replicate 100 START_EQUITY ∧
    (runStrategyOn ops gos (List.replicate 100 c) seed g).1 =
      Except.error "KeyError: date (sort_values on empty trade frame)" := by
  have hrows : addZscores ops (List.replicate 100 c) =
      List.replicate 100 ((c, none) : ℚ × Option ℚ) := by
    rw [addZscores, zColumn_flat]
    exact List.zip_replicate'
  have hz : ∀ r ∈ List.replicate 100 ((c, none) : ℚ × Option ℚ), r.2 = none := by
    intro r hr
    rw [List.eq_of_mem_replicate hr]
  have hfin : runEngine randomCfg (addZscores ops (List.replicate 100 c)) (gos seed) =
      { initState (gos seed) with
          equity := quietSamples 0 START_EQUITY
            (List.replicate 100 ((c, none) : ℚ × Option ℚ)) } := by
    rw [hrows, runEngine]
    rw [runSteps_quiet randomCfg _ _ 0 (initState (gos seed)) hz rfl rfl rfl]
    simp [initState]
  have hq : quietSamples 0 START_EQUITY (List.replicate 100 ((c, none) : ℚ × Option ℚ)) =
      { date := 0, equity := START_EQUITY, cash := START_EQUITY, unrealized := 0,
        held_contracts := 0, open_put_contracts := 0, open_call_contracts := 0 } ::
        quietSamples 1 START_EQUITY (List.replicate 99 ((c, none) : ℚ × Option ℚ)) := by
    rfl
  have hmap : ((quietSamples 0 START_EQUITY
      (List.replicate 100 ((c, none) : ℚ × Option ℚ))).map (fun e => e.equity)) =
      List.replicate 100 START_EQUITY := by
    rw [quietSamples_map_equity]
    simp
  refine ⟨?_, zColumn_flat ops 100 c, ?_, ?_, ?_, ?_⟩
  · intro i
    rw [windowAt_replicate, popVar_replicate]
  · rw [hfin]
    rfl
  · rw [hfin]
    rfl
  · rw [hfin]
    exact hmap
  · simp only [runStrategyOn]
    rw [hfin]
    exact mkOutput_empty_trades ops _ _ _ hq rfl

theorem addZscores_length (ops : FloatOps) (closes : List ℚ) :
    (addZscores ops closes).length = closes.length := by
  simp [addZscores, zColumn]

theorem addZscores_getD_fst (ops : FloatOps) (closes : List ℚ) (d : ℕ) (hd : d < closes.length) :
    ((addZscores ops closes).getD d (0, none)).1 = closes.getD d 0 := by
  have hd2 : d < (addZscores ops closes).length := by
    rw [addZscores_length]
    exact hd
  have hd3 : d < (closes.zip (zColumn ops closes)).length := hd2
  rw [List.getD_eq_getElem?_getD, List.getElem?_eq_getElem hd2, Option.getD_some]
  rw [List.getD_eq_getElem?_getD, List.getElem?_eq_getElem hd, Option.getD_some]
  have hz := @List.getElem_zip _ _ closes (zColumn ops closes) d hd3
  show (closes.zip (zColumn ops closes))[d].1 = closes[d]
  rw [hz]

theorem stateAfter_eq_step (cfg : Config) (rows : List (ℚ × Option ℚ)) (g : Gen) (d : ℕ)
    (hd : d < rows.length) :
    stateAfter cfg rows g d =
      stepDay cfg rows.length d (rows.getD d (0, none)).1 (rows.getD d (0, none)).2
        (runSteps cfg rows.length 0 (rows.take d) (initState g)) := by
  have ht : rows.take (d + 1) = rows.take d ++ [rows.getD d (0, none)] := by
    rw [List.take_succ]
    congr 1
    have hx : rows[d]? = some rows[d] := List.getElem?_eq_getElem hd
    rw [hx]
    have hgd : rows.getD d (0, none) = rows[d] := by
      rw [List.getD_eq_getElem?_getD, hx]
      rfl
    rw [hgd]
    rfl
  have hlen : (rows.take d).length = d := by
    rw [List.length_take]
    omega
  simp only [stateAfter]
  rw [ht, runSteps_append, hlen]
  simp [runSteps]

theorem stateAfter_cash_from_start (cfg : Config) (rows : List (ℚ × Option ℚ)) (g : Gen) (d : ℕ)
    (h1 : 0 ≤ cfg.putMin) (h2 : cfg.putMin ≤ cfg.putMax) (h3 : 0 ≤ cfg.callMin)
    (h4 : cfg.callMin ≤ cfg.callMax) : START_EQUITY ≤ (stateAfter cfg rows g d).cash := by
  have h := runSteps_cash_mono cfg rows.length (rows.take (d + 1)) 0 (initState g) h1 h2 h3 h4
  have e : (initState g).cash = START_EQUITY := rfl
  rw [e] at h
  exact h

theorem stateAfter_cash_le_succ (cfg : Config) (rows : List (ℚ × Option ℚ)) (g : Gen) (d : ℕ)
    (h1 : 0 ≤ cfg.putMin) (h2 : cfg.putMin ≤ cfg.putMax) (h3 : 0 ≤ cfg.callMin)
    (h4 : cfg.callMin ≤ cfg.callMax) :
    (stateAfter cfg rows g d).cash ≤ (stateAfter cfg rows g (d + 1)).cash := by
  by_cases hd : d + 1 < rows.length
  · rw [stateAfter_succ cfg rows g d hd]
    exact stepDay_cash_ge cfg rows.length (d + 1) _ _ _ h1 h2 h3 h4
  · rw [stateAfter_stable cfg rows g d (by omega)]

/-- C1: notional cap invariant.  For every input price series (arbitrary
closes and arbitrary float square-root behaviour `ops`), every generator
state `g` (hence every seed) and every day `d`, the engine state of
`run_strategy_on` at the end of day `d` satisfies
`(open_put_contracts + held_contracts) * CONTRACT_NOTIONAL ≤ RISK_CAP`;
the cap check precedes ticket creation, so no single day's put sale can
break the cap. -/
theorem cap_invariant_every_day (ops : FloatOps) (closes : List ℚ) (g : Gen) (d : ℕ) :
    usedNotional randomCfg (stateAfter randomCfg (addZscores ops closes) g d) ≤
      randomCfg.riskCap :=
  (stateAfter_wf randomCfg (addZscores ops closes) g d (by decide) (by decide)).2

/-- C9: cash monotonicity.  In both strategy variants every cash change is
a premium collection (clipped-normal premiums are bounded below by
`PUT_MIN = 80` resp. `CALL_MIN = 100`) or a long closure realizing at least
`TARGET_POINTS * POINT_VALUE` per contract, so day-end cash never
decreases from one day to the next and always stays at or above
`START_EQUITY`. -/
theorem cash_monotone (ops : FloatOps) (closes : List ℚ) (g : Gen) (d : ℕ) :
    (START_EQUITY ≤ (stateAfter randomCfg (addZscores ops closes) g d).cash ∧
      (stateAfter randomCfg (addZscores ops closes) g d).cash ≤
        (stateAfter randomCfg (addZscores ops closes) g (d + 1)).cash) ∧
    (START_EQUITY ≤ (stateAfter histCfg (addZscores ops closes) g d).cash ∧
      (stateAfter histCfg (addZscores ops closes) g d).cash ≤
        (stateAfter histCfg (addZscores ops closes) g (d + 1)).cash) := by
  refine ⟨⟨?_, ?_⟩, ?_, ?_⟩
  · exact stateAfter_cash_from_start randomCfg _ g d (by norm_num [randomCfg])
      (by norm_num [randomCfg]) (by norm_num [randomCfg]) (by norm_num [randomCfg])
  · exact stateAfter_cash_le_succ randomCfg _ g d (by norm_num [randomCfg])
      (by norm_num [randomCfg]) (by norm_num [randomCfg]) (by norm_num [randomCfg])
  · exact stateAfter_cash_from_start histCfg _ g d (by norm_num [histCfg])
      (by norm_num [histCfg]) (by norm_num [histCfg]) (by norm_num [histCfg])
  · exact stateAfter_cash_le_succ histCfg _ g d (by norm_num [histCfg])
      (by norm_num [histCfg]) (by norm_num [histCfg]) (by norm_num [histCfg])

theorem stateAfter_last (cfg : Config) (rows : List (ℚ × Option ℚ)) (g : Gen) (d : ℕ)
    (h : rows.length ≤ d + 1) : stateAfter cfg rows g d = runEngine cfg rows g := by
  simp only [stateAfter, runEngine]
  rw [List.take_of_length_le h]

theorem expirePutsScan_fst_filter (d : ℕ) (price : ℚ) (ts : List PutTicket) :
    (expirePutsScan d price ts).1 = ts.filter (fun t => decide (d < t.expires_on)) := by
  induction ts with
  | nil => simp [expirePutsScan]
  | cons u rest ih =>
    simp only [expirePutsScan, List.filter]
    by_cases he : u.expires_on ≤ d
    · have hd : decide (d < u.expires_on) = false := by simp [not_lt.mpr he]
      rw [if_pos he, hd]
      by_cases ha : 0 < u.assigned_contracts
      · rw [if_pos ha]
        exact ih
      · rw [if_neg ha]
        exact ih
    · have hd : decide (d < u.expires_on) = true := by simp [lt_of_not_ge he]
      rw [if_neg he, hd, ih]

theorem expirePutsScan_newpos (d : ℕ) (price : ℚ) (ts : List PutTicket) :
    (expirePutsScan d price ts).2.1 =
      (ts.filter (fun t => decide (t.expires_on ≤ d) && decide (0 < t.assigned_contracts))).map
        (fun t => (⟨d, price, t.assigned_contracts⟩ : LongMNQ)) := by
  induction ts with
  | nil => simp [expirePutsScan]
  | cons u rest ih =>
    simp only [expirePutsScan, List.filter]
    by_cases he : u.expires_on ≤ d
    · by_cases ha : 0 < u.assigned_contracts
      · have hb : (decide (u.expires_on ≤ d) && decide (0 < u.assigned_contracts)) = true := by
          simp [he, ha]
        rw [if_pos he, if_pos ha, hb]
        simp [ih]
      · have hb : (decide (u.expires_on ≤ d) && decide (0 < u.assigned_contracts)) = false := by
          simp [ha]
        rw [if_pos he, if_neg ha, hb]
        exact ih
    · have hb : (decide (u.expires_on ≤ d) && decide (0 < u.assigned_contracts)) = false := by
        simp [he]
      rw [if_neg he, hb]
      simp [ih]

/-- C4 (amended): (i) the daily put-expiry phase removes exactly the
tickets with `expires_on ≤ day`, and each removed ticket with a positive
assignment count produces exactly one aggregated `LongPosition` entry at
today's close; (ii) at the end of every processed day `d`, every open
`PutTicket` has `expires_on ≥ d`, and `expires_on = d` is possible only
for a ticket sold on day `d` when `d` is the last day of the series (such
a ticket is never expired: the run ends first). -/
theorem put_ticket_lifecycle_amended :
    (∀ (d : ℕ) (price : ℚ) (ts : List PutTicket),
      (expirePutsScan d price ts).1 = ts.filter (fun t => decide (d < t.expires_on)) ∧
      (expirePutsScan d price ts).2.1 =
        (ts.filter (fun t => decide (t.expires_on ≤ d) && decide (0 < t.assigned_contracts))).map
          (fun t => (⟨d, price, t.assigned_contracts⟩ : LongMNQ))) ∧
    (∀ (ops : FloatOps) (closes : List ℚ) (g : Gen) (d : ℕ), d < closes.length →
      ∀ t ∈ (stateAfter randomCfg (addZscores ops closes) g d).open_puts,
        d ≤ t.expires_on ∧ (t.expires_on = d → t.open_day = d ∧ d + 1 = closes.length)) := by
  refine ⟨fun d price ts => ⟨expirePutsScan_fst_filter d price ts,
    expirePutsScan_newpos d price ts⟩, ?_⟩
  intro ops closes g d hd t ht
  have hlen : (addZscores ops closes).length = closes.length := addZscores_length ops closes
  have hd2 : d < (addZscores ops closes).length := by omega
  rw [stateAfter_eq_step randomCfg _ g d hd2] at ht
  rcases stepDay_open_puts_mem _ _ _ _ _ _ t ht with ⟨_, hlt⟩ | ⟨ho, he⟩
  · exact ⟨le_of_lt hlt, fun hEq => absurd hEq (by omega)⟩
  · by_cases hc : d + 1 < (addZscores ops closes).length
    · rw [if_pos hc] at he
      exact ⟨by omega, fun hEq => absurd hEq (by omega)⟩
    · rw [if_neg hc] at he
      exact ⟨by omega, fun _ => ⟨ho, by omega⟩⟩

/-- C4 witness: on `closes4` the last day sells a put expiring the same
day; the amended invariant holds for it. -/
theorem put_ticket_lifecycle_amended_witness :
    19 ≤ ((⟨19, 5, 105, 19, 5⟩ : PutTicket)).expires_on ∧
      (((⟨19, 5, 105, 19, 5⟩ : PutTicket)).expires_on = 19 →
        ((⟨19, 5, 105, 19, 5⟩ : PutTicket)).open_day = 19 ∧ 19 + 1 = closes4.length) :=
  put_ticket_lifecycle_amended.2 defaultOps closes4 g0 19 (by simp [closes4])
    (⟨19, 5, 105, 19, 5⟩ : PutTicket) (by with_unfolding_all decide)

/-- C4 counterexample: the claim as stated ("after the engine processes
day d, no PutTicket with expires_on ≤ d remains in the open set") fails on
`closes4`: after the engine has processed day 19 (the last day), the open
set still holds the ticket sold on day 19 with `expires_on = 19 ≤ 19`; it
was created after the expiry phase of its own day and is never removed. -/
theorem last_day_put_ticket_persists :
    (stateAfter randomCfg (addZscores defaultOps closes4) g0 19).open_puts =
      [(⟨19, 5, 105, 19, 5⟩ : PutTicket)] ∧
    ¬ (∀ t ∈ (stateAfter randomCfg (addZscores defaultOps closes4) g0 19).open_puts,
        19 < t.expires_on) ∧
    closes4.length = 20 := by
  refine ⟨by with_unfolding_all decide, ?_, by decide⟩
  intro hall
  have := hall (⟨19, 5, 105, 19, 5⟩ : PutTicket) (by with_unfolding_all decide)
  have he : ((⟨19, 5, 105, 19, 5⟩ : PutTicket)).expires_on = 19 := rfl
  omega

/-- C5: long-position closure.  (i) the daily long-management phase keeps
exactly the positions still below `TARGET_POINTS` of appreciation (a
position either closes fully or stays untouched — no partial closes);
(ii) it credits cash with exactly `(close - entry) * POINT_VALUE *
contracts` summed over the positions at or past target; (iii) consequently
in any run (either variant, any series, any generator state), at the end
of any day no open position has reached the target with respect to that
day's close, so a position never remains open past the first day whose
close is `TARGET_POINTS` above its entry. -/
theorem long_close_correct :
    (∀ (d : ℕ) (price : ℚ) (ps : List LongMNQ),
      (closeLongsScan d price ps).1 =
        ps.filter (fun p => decide (price - p.entry_price < TARGET_POINTS))) ∧
    (∀ (d : ℕ) (price : ℚ) (s : EngineState),
      (closeLongsPhase d price s).cash = s.cash +
        ((s.positions.filter (fun p => decide (TARGET_POINTS ≤ price - p.entry_price))).map
          (fun p => (price - p.entry_price) * POINT_VALUE * p.contracts)).sum) ∧
    (∀ (cfg : Config) (ops : FloatOps) (closes : List ℚ) (g : Gen) (d : ℕ),
      d < closes.length →
        ∀ p ∈ (stateAfter cfg (addZscores ops closes) g d).positions,
          closes.getD d 0 - p.entry_price < TARGET_POINTS) := by
  refine ⟨closeLongsScan_fst, ?_, ?_⟩
  · intro d price s
    rw [closeLongsPhase_eq]
    dsimp only
    rw [closeLongsScan_gain]
  · intro cfg ops closes g d hd p hp
    have hlen : (addZscores ops closes).length = closes.length := addZscores_length ops closes
    have hd2 : d < (addZscores ops closes).length := by omega
    rw [stateAfter_eq_step cfg _ g d hd2] at hp
    have hb := stepDay_positions_below cfg (addZscores ops closes).length d
      ((addZscores ops closes).getD d (0, none)).1 ((addZscores ops closes).getD d (0, none)).2
      _ p hp
    rw [addZscores_getD_fst ops closes d hd] at hb
    exact hb

/-- C5 witness: on `closes5` a position entered at 103 on day 20 is open
at the end of day 20 and indeed below target there. -/
theorem long_close_correct_witness :
    closes5.getD 20 0 - ((⟨20, 103, 5⟩ : LongMNQ)).entry_price < TARGET_POINTS :=
  long_close_correct.2.2 randomCfg defaultOps closes5 g0 20 (by simp [closes5])
    (⟨20, 103, 5⟩ : LongMNQ) (by with_unfolding_all decide)

/-- C2 (amended): `run_strategy_on` executes `random.seed(seed)` and
`np.random.seed(seed)` on entry, so its outputs depend only on the price
series, the seeding function and the seed, not on the process generator
state at call time: repeated invocations within one process reproduce
byte-identical equity, trade and stats outputs. -/
theorem run_strategy_on_reseeds (ops : FloatOps) (genOfSeed : ℕ → Gen) (closes : List ℚ)
    (seed : ℕ) (g1 g2 : Gen) :
    (runStrategyOn ops genOfSeed closes seed g1).1 =
      (runStrategyOn ops genOfSeed closes seed g2).1 ∧
    (runStrategyOn ops genOfSeed closes seed g1).1 =
      mkOutput ops (runEngine randomCfg (addZscores ops closes) (genOfSeed seed)) :=
  ⟨rfl, rfl⟩

set_option maxRecDepth 8000 in
/-- C2 counterexample: `run_sim` contains no seeding call (the generators
are seeded once at module import, lines 51-52 of `mnq_sim.py`), so its
output is a function of the process generator state at call time: the same
price data fed to the engine body under the freshly seeded state `g0` and
under a state `gB` whose normal stream has advanced produces different
trade tables (premium 105 vs 115 on the last-day put sale).  A second
invocation within one process therefore need not reproduce the first. -/
theorem run_sim_depends_on_generator_state :
    ((runSimOn defaultOps closes2 g0).1.toOption.map (fun o => o.trades)) ≠
      ((runSimOn defaultOps closes2 gB).1.toOption.map (fun o => o.trades)) := by
  with_unfolding_all decide

/-- C3: the engine fails on BOTH degenerate inputs, contrary to the
claim's "never raising".  With zero rows the equity curve is empty and
`pd.DataFrame([]).set_index("date")` raises `KeyError: 'date'`
(random_mnq_sim.py line 247); with one row the engine records one equity
sample but no trade (the rolling window is undefined), so
`pd.DataFrame([]).sort_values("date")` on the empty trade ledger raises
`KeyError: 'date'` (line 249) before any output is returned. -/
theorem empty_and_single_row_raise :
    (runStrategyOn defaultOps (fun _ => g0) [] 42 g0).1 =
      Except.error "KeyError: date (set_index on empty equity frame)" ∧
    (runStrategyOn defaultOps (fun _ => g0) [1000] 42 g0).1 =
      Except.error "KeyError: date (sort_values on empty trade frame)" ∧
    (runEngine randomCfg (addZscores defaultOps [1000]) g0).equity.length = 1 ∧
    (runEngine randomCfg (addZscores defaultOps [1000]) g0).trades = [] := by
  refine ⟨by with_unfolding_all rfl, by with_unfolding_all rfl,
    by with_unfolding_all decide, by with_unfolding_all decide⟩

theorem mkOutput_ok (ops : FloatOps) (s : EngineState) (h : s.equity ≠ [])
    (ht : s.trades ≠ []) :
    mkOutput ops s = Except.ok
      ⟨s.equity, pctChange (s.equity.map (fun x => x.equity)), s.trades,
        ⟨(s.equity.map (fun x => x.equity)).getLastD 0,
          cagrStat ops (s.equity.map (fun x => x.equity)),
          sharpeStat ops (pctChange (s.equity.map (fun x => x.equity))),
          maxDrawdownStat (s.equity.map (fun x => x.equity)), s.trades.length⟩⟩ := by
  cases hq : s.equity with
  | nil => exact absurd hq h
  | cons e rest =>
    cases hr : s.trades with
    | nil => exact absurd hr ht
    | cons r rrest => simp only [mkOutput, hq, hr]

/-- C7 (amended): with at least two returns, the `sharpe` function yields
an explicit NaN (not an exception) when the sample variance of returns is
0, and otherwise `sqrt(252) * mean / (std + 1e-12)` — the source adds a
`1e-12` guard to the standard deviation, so the reported value does not
equal `sqrt(252) * mean / std` exactly.  For any run whose equity curve and
trade ledger are both nonempty the assembled output carries this function
applied to the `pct_change` returns of the equity column, whose first entry
is 0.  (A run with zero trades never reaches the statistic: the output
assembly raises `KeyError` at the trade-table sort first.) -/
theorem sharpe_formula_amended :
    (∀ (ops : FloatOps) (rets : List ℚ), 2 ≤ rets.length →
      (sampleVar rets = 0 → sharpeStat ops rets = none) ∧
      (sampleVar rets ≠ 0 → sharpeStat ops rets =
        some (ops.sqrtQ 252 * listMean rets / (ops.sqrtQ (sampleVar rets) + SHARPE_EPS)))) ∧
    (∀ (ops : FloatOps) (s : EngineState), s.equity ≠ [] → s.trades ≠ [] →
      ∃ out, mkOutput ops s = Except.ok out ∧
        out.returns = pctChange (s.equity.map (fun e => e.equity)) ∧
        out.stats.sharpeRatio = sharpeStat ops out.returns ∧
        out.returns.headD 1 = 0) := by
  constructor
  · intro ops rets hlen
    constructor
    · intro hv
      simp [sharpeStat, hv]
    · intro hv
      rw [sharpeStat]
      rw [if_neg (by omega), if_neg hv]
  · intro ops s hne ht
    refine ⟨_, mkOutput_ok ops s hne ht, rfl, rfl, ?_⟩
    cases hq : s.equity with
    | nil => exact absurd hq hne
    | cons e rest => simp [hq, pctChange]

/-- C7 witness: part 1 evaluated at the concrete return series [0, 1, 2]
(sample variance 1); part 2 evaluated at `sX`, a state with one equity
sample and one trade row, on which the output assembly succeeds. -/
theorem sharpe_formula_amended_witness :
    (sharpeStat defaultOps [0, 1, 2] =
      some (defaultOps.sqrtQ 252 * listMean [0, 1, 2] /
        (defaultOps.sqrtQ (sampleVar [0, 1, 2]) + SHARPE_EPS))) ∧
    (mkOutput defaultOps sX).toOption.isSome = true := by
  refine ⟨(sharpe_formula_amended.1 defaultOps [0, 1, 2] (by decide)).2
    (by with_unfolding_all decide), ?_⟩
  obtain ⟨out, hout, -, -, -⟩ :=
    sharpe_formula_amended.2 defaultOps sX (by simp [sX]) (by simp [sX])
  rw [hout]
  rfl

/-- C7 counterexample: on the returns [0, 1, 2] (realizable as pct-change
returns with first return 0; sample variance exactly 1, std exactly 1) the
reported Sharpe is `15/(1 + 1e-12)`, not `15/1`: the claim's equality
`Sharpe = sqrt(252) * mean / std` fails (the factor `sqrt 252` is the same
rational stand-in on both sides, so the discrepancy is exactly the
epsilon guard, which also survives with the irrational real sqrt). -/
theorem sharpe_epsilon_shift :
    sharpeStat defaultOps [0, 1, 2] ≠ sharpeSpec defaultOps [0, 1, 2] := by
  with_unfolding_all decide

/-- C8 (amended): in `run_strategy_on` (random variant), whenever a
put-sell signal fires (`z` defined and `z ≤ PUT_Z`) while the cap-clipped
contract count is 0, the put-sell phase appends exactly one `SKIP_PUT_CAP`
record to the trade ledger.  (`run_sim` has no such branch: see the
counterexample.) -/
theorem skip_record_on_cap (total d : ℕ) (zv : ℚ) (s : EngineState)
    (hz : zv ≤ randomCfg.putZ)
    (hcap : (max 0 ((randomCfg.riskCap - usedNotional randomCfg s).fdiv
      randomCfg.contractNotional)).toNat = 0) :
    (putSellPhase randomCfg total d (some zv) s).trades =
      s.trades ++ [(⟨d, TradeType.SKIP_PUT_CAP, 0, 0, 0⟩ : TradeRec)] := by
  have hn : ¬ 0 < min (choiceFrom randomCfg.choiceSet s.gen).1
      (max 0 ((randomCfg.riskCap - usedNotional randomCfg s).fdiv
        randomCfg.contractNotional)).toNat := by
    rw [hcap]
    simp
  rw [putSellPhase_capped_skip randomCfg total d zv s hz hn rfl]

/-- C8 witness: with 23 contracts held the clipped count is 0 and a signal
of z = -1 appends the SKIP_PUT_CAP record. -/
theorem skip_record_on_cap_witness :
    (putSellPhase randomCfg 5 3 (some (-1)) sW).trades =
      sW.trades ++ [(⟨3, TradeType.SKIP_PUT_CAP, 0, 0, 0⟩ : TradeRec)] :=
  skip_record_on_cap 5 3 (-1) sW (by norm_num [randomCfg]) (by with_unfolding_all decide)

set_option maxRecDepth 8000 in
/-- C8 counterexample: in `run_sim` (historical variant) the claim fails.
On `rows8` under `g8`, day 10's signal fires (z = -2 is defined and
≤ -1.5) while the notional in use at signal time is exactly the
1,200,000 cap (20 held longs), so the clipped count is 0 — yet the final
ledger holds only the 10 SELL_PUT and 10 ASSIGN_PUT rows of days 0-10 and
no SKIP-type record at all: the signal is dropped without a trace. -/
theorem hist_silent_drop_on_cap :
    ((runEngine histCfg rows8 g8).trades.all
      (fun r => r.ttype ≠ TradeType.SKIP_PUT_CAP)) = true ∧
    (rows8.getD 10 (0, none)).2 = some (-2) ∧
    usedNotional histCfg
      (closeLongsPhase 10 (rows8.getD 10 (0, none)).1
        (expireCallsPhase 10
          (expirePutsPhase 10 (rows8.getD 10 (0, none)).1
            (stateAfter histCfg rows8 g8 9)))) = 1200000 ∧
    (runEngine histCfg rows8 g8).trades.length = 20 := by
  refine ⟨?_, ?_, ?_, ?_⟩
  · with_unfolding_all decide
  · with_unfolding_all decide
  · with_unfolding_all decide
  · with_unfolding_all decide

/-- C10: input immutability.  Running the strategy never mutates the price
frame passed in: `add_zscores` assigns its derived columns to a copy, so
after `run_strategy_on` returns, the caller's frame is unchanged on the
heap (the same series can be replayed). -/
theorem input_frame_unchanged (ops : FloatOps) (genOfSeed : ℕ → Gen) (h : List Frame)
    (r : ℕ) (seed : ℕ) (hr : r < h.length) :
    (runStrategyOnHeap ops genOfSeed h r seed).1.getD r default = h.getD r default := by
  have e : (runStrategyOnHeap ops genOfSeed h r seed).1 =
      (h ++ [h.getD r default]).set h.length
        { (h ++ [h.getD r default]).getD h.length default with
          ma := maColumn ((h ++ [h.getD r default]).getD h.length default).closes,
          sd := sdColumn ops ((h ++ [h.getD r default]).getD h.length default).closes,
          z := zColumn ops ((h ++ [h.getD r default]).getD h.length default).closes } := rfl
  rw [e]
  rw [List.getD_eq_getElem?_getD]
  rw [List.getElem?_set_ne (by omega)]
  rw [List.getElem?_append, if_pos hr]
  rw [← List.getD_eq_getElem?_getD]

/-- C10 witness: a one-frame heap is unchanged at its only reference. -/
theorem input_frame_unchanged_witness :
    (runStrategyOnHeap defaultOps (fun _ => g0) [rawFrame [5]] 0 7).1.getD 0 default =
      [rawFrame [5]].getD 0 default :=
  input_frame_unchanged defaultOps (fun _ => g0) [rawFrame [5]] 0 7 (by decide)
